import Mathlib

/-!
Verification of the persistence layer (src/js/persistence.ts).

The layer is a typed accessor library over an asynchronous device-local
key-value store (AsyncStorage): per-lesson listening progress, two recency
pointers, eight named preferences, and a metrics token.

Embedding choices, each traceable to the source:
* The store is an association list from string keys to string values.
  `setItem` prepends (later bindings shadow earlier ones), `removeItem`
  filters, `getItem` takes the first binding.  All claims observe the store
  through `Store.get`, and single-caller sequential behaviour is what the
  claims describe, so the async `Promise.all` batches are modelled as
  sequential writes to (provably) distinct keys.
* JavaScript values that flow through the layer (booleans, strings, JSON
  objects, null) are modelled by the inductive `Json`.  JS numbers are
  modelled as integers: every number the layer manipulates is a playback
  position or a lesson index, and the claims are about decimal round trips,
  not float formatting.  `JSON.parse` is a fuel-based recursive-descent
  parser over the JSON fragment the layer can store (no arrays, no escape
  sequences inside string literals, no number fractions or exponents, no
  whitespace skipping); `JSON.stringify` prints exactly the strings the
  JS one prints on that fragment.  A thrown `JSON.parse` exception is an
  `Except.error`.
* The `'' + val` string coercion is `jsToString` ("true"/"false" for
  booleans, identity for strings, "[object Object]" for plain objects).
  An `if (x)` truthiness test on a nullable string is the test against
  `none` and the empty string.
* `parseInt(s, 10)` is `jsParseInt`: it never throws, and yields
  `JSNumber.nan` when no leading digits are found.
* `uuid()` draws are passed in as explicit `freshToken` arguments; external
  collaborators (`DownloadManager.genIsDownloaded`,
  `CourseData.getLessonIndices`) are parameters, and
  `DownloadManager.genDeleteDownload` invocations are returned as an
  explicit call list.  The fire-and-forget `log(...)` call in the
  preference setter writes nothing to the store and is not modelled.
-/

set_option maxRecDepth 8000

/-! ### The key-value store (AsyncStorage) -/

/-- A device-local string-to-string store; later bindings shadow earlier ones. -/
def Store : Type := List (String × String)

/-- Model of `AsyncStorage.getItem`: first binding of the key, `null` if unset. -/
def Store.get : Store → String → Option String
  | [], _ => none
  | (k, v) :: rest, key => if k = key then some v else Store.get rest key

/-- Model of `AsyncStorage.setItem`: bind the key, shadowing any older binding. -/
def Store.set (s : Store) (key val : String) : Store :=
  (key, val) :: s

/-- Model of `AsyncStorage.removeItem`: drop every binding of the key. -/
def Store.remove : Store → String → Store
  | [], _ => []
  | (k, v) :: rest, key =>
    if k = key then Store.remove rest key else (k, v) :: Store.remove rest key

/-- Remove a list of keys one after the other (the `Promise.all` removal batch
in `genDeleteProgressForCourse`; removals of distinct keys commute, so the
sequential order is immaterial). -/
def Store.removeKeys (s : Store) (keys : List String) : Store :=
  keys.foldl Store.remove s

theorem Store.get_set (s : Store) (k v k' : String) :
    (s.set k v).get k' = if k = k' then some v else s.get k' := rfl

theorem Store.get_remove_self (s : Store) (k : String) :
    (s.remove k).get k = none := by
  induction s with
  | nil => rfl
  | cons hd tl ih =>
    obtain ⟨hk, hv⟩ := hd
    simp only [Store.remove]
    by_cases h1 : hk = k
    · rw [if_pos h1]; exact ih
    · rw [if_neg h1]
      simp only [Store.get, if_neg h1]
      exact ih

theorem Store.get_remove_ne (s : Store) (k k' : String) (h : k ≠ k') :
    (s.remove k).get k' = s.get k' := by
  induction s with
  | nil => rfl
  | cons hd tl ih =>
    obtain ⟨hk, hv⟩ := hd
    simp only [Store.remove]
    by_cases h1 : hk = k
    · rw [if_pos h1]
      simp only [Store.get]
      rw [if_neg (h1 ▸ (fun hh => h hh) : ¬hk = k')]
      exact ih
    · rw [if_neg h1]
      simp only [Store.get]
      by_cases h2 : hk = k'
      · rw [if_pos h2, if_pos h2]
      · rw [if_neg h2, if_neg h2]; exact ih

theorem Store.get_remove (s : Store) (k k' : String) :
    (s.remove k).get k' = if k = k' then none else s.get k' := by
  by_cases h : k = k'
  · subst h; rw [if_pos rfl]; exact Store.get_remove_self s k
  · rw [if_neg h]; exact Store.get_remove_ne s k k' h

theorem Store.get_removeKeys (keys : List String) (s : Store) (k : String) :
    (s.removeKeys keys).get k = if k ∈ keys then none else s.get k := by
  induction keys generalizing s with
  | nil => simp [Store.removeKeys]
  | cons hd tl ih =>
    simp only [Store.removeKeys, List.foldl_cons] at *
    rw [ih, Store.get_remove]
    by_cases h1 : k ∈ tl
    · simp [h1]
    · by_cases h2 : hd = k
      · simp [h2]
      · simp [h1, h2, Ne.symm h2]

/-! ### Decimal numerals

`lesson.toString()`, the integer part of `JSON.stringify`, and `parseInt`
all move between numbers and decimal digit strings.  `natDigitsAux` is the
printing loop (fuel-based so that everything kernel-reduces). -/

/-- Decimal digits of `n`, most significant first; `fuel ≥ n` suffices. -/
def natDigitsAux : Nat → Nat → List Char
  | 0, _ => []
  | fuel + 1, n =>
    if n = 0 then [] else natDigitsAux fuel (n / 10) ++ [Char.ofNat (48 + n % 10)]

/-- Model of JS `Number.prototype.toString` on a natural number. -/
def natToString (n : Nat) : String :=
  if n = 0 then "0" else String.mk (natDigitsAux n n)

/-- Model of JS number-to-string on an integer (used by `JSON.stringify`). -/
def intToString (i : Int) : String :=
  if i < 0 then "-" ++ natToString i.natAbs else natToString i.toNat

/-- Accumulate the value of a decimal digit run (the numeric loop shared by
`parseInt` and the number case of `JSON.parse`). -/
def digitsVal (acc : Nat) (l : List Char) : Nat :=
  l.foldl (fun a c => a * 10 + (c.toNat - 48)) acc

/-- Split off the longest run of leading decimal digits. -/
def takeDigits : List Char → List Char × List Char
  | [] => ([], [])
  | c :: rest =>
    if c.isDigit then ((takeDigits rest).1.cons c, (takeDigits rest).2)
    else ([], c :: rest)

/-- Parse a nonempty run of leading decimal digits (fails when the first
character is not a digit). -/
def parseNum (cs : List Char) : Option (Nat × List Char) :=
  match takeDigits cs with
  | ([], _) => none
  | (ds, rest) => some (digitsVal 0 ds, rest)

/-- The head of this character list, if any, is not a decimal digit. -/
def notDigitHead : List Char → Prop
  | [] => True
  | c :: _ => c.isDigit = false

theorem digitsVal_nil (acc : Nat) : digitsVal acc [] = acc := rfl

theorem digitsVal_cons (acc : Nat) (c : Char) (l : List Char) :
    digitsVal acc (c :: l) = digitsVal (acc * 10 + (c.toNat - 48)) l := rfl

theorem digitsVal_append_singleton (l : List Char) (d : Char) (acc : Nat) :
    digitsVal acc (l ++ [d]) = digitsVal acc l * 10 + (d.toNat - 48) := by
  simp [digitsVal, List.foldl_append]

theorem digitChar_isDigit (d : Nat) (hd : d < 10) :
    (Char.ofNat (48 + d)).isDigit = true := by
  interval_cases d <;> decide

theorem digitChar_toNat (d : Nat) (hd : d < 10) :
    (Char.ofNat (48 + d)).toNat = 48 + d := by
  interval_cases d <;> decide

theorem natDigitsAux_digits (fuel n : Nat) :
    ∀ c ∈ natDigitsAux fuel n, c.isDigit = true := by
  induction fuel generalizing n with
  | zero => intro c hc; simp [natDigitsAux] at hc
  | succ fuel ih =>
    intro c hc
    by_cases h0 : n = 0
    · simp [natDigitsAux, h0] at hc
    · simp only [natDigitsAux, if_neg h0, List.mem_append, List.mem_singleton] at hc
      rcases hc with hc | hc
      · exact ih (n / 10) c hc
      · subst hc; exact digitChar_isDigit _ (Nat.mod_lt _ (by decide))

theorem digitsVal_natDigitsAux (fuel : Nat) :
    ∀ n acc, n ≤ fuel →
      digitsVal acc (natDigitsAux fuel n) = acc * 10 ^ (natDigitsAux fuel n).length + n := by
  induction fuel with
  | zero =>
    intro n acc hn
    interval_cases n
    simp [natDigitsAux, digitsVal]
  | succ fuel ih =>
    intro n acc hn
    by_cases h0 : n = 0
    · subst h0; simp [natDigitsAux, digitsVal]
    · have hdiv : n / 10 ≤ fuel :=
        Nat.le_of_lt_succ
          (Nat.lt_of_lt_of_le (Nat.div_lt_self (Nat.pos_of_ne_zero h0) (by decide)) hn)
      simp only [natDigitsAux, if_neg h0]
      rw [digitsVal_append_singleton, ih (n / 10) acc hdiv,
        digitChar_toNat (n % 10) (Nat.mod_lt _ (by decide))]
      rw [List.length_append, List.length_singleton, pow_succ, ← mul_assoc]
      generalize acc * 10 ^ (natDigitsAux fuel (n / 10)).length = Q
      omega

theorem natDigitsAux_ne_nil (fuel n : Nat) (h0 : n ≠ 0) (hf : fuel ≠ 0) :
    natDigitsAux fuel n ≠ [] := by
  cases fuel with
  | zero => exact absurd rfl hf
  | succ fuel => simp [natDigitsAux, h0]

theorem natToString_digits (n : Nat) : ∀ c ∈ (natToString n).data, c.isDigit = true := by
  by_cases h0 : n = 0
  · subst h0; intro c hc; simp [natToString] at hc; subst hc; decide
  · simp only [natToString, if_neg h0]
    exact natDigitsAux_digits n n

theorem natToString_ne_nil (n : Nat) : (natToString n).data ≠ [] := by
  by_cases h0 : n = 0
  · subst h0; simp [natToString]
  · simp only [natToString, if_neg h0]
    exact natDigitsAux_ne_nil n n h0 h0

theorem digitsVal_natToString (n : Nat) : digitsVal 0 (natToString n).data = n := by
  by_cases h0 : n = 0
  · subst h0; simp [natToString]; decide
  · simp only [natToString, if_neg h0]
    rw [digitsVal_natDigitsAux n n 0 (Nat.le_refl n)]
    simp

theorem takeDigits_spec (l : List Char) (rest : List Char)
    (hl : ∀ c ∈ l, c.isDigit = true) (hrest : notDigitHead rest) :
    takeDigits (l ++ rest) = (l, rest) := by
  induction l with
  | nil =>
    cases rest with
    | nil => rfl
    | cons c r =>
      simp only [notDigitHead] at hrest
      simp only [List.nil_append, takeDigits]
      rw [if_neg (by simp [hrest])]
  | cons c l ih =>
    have hc : c.isDigit = true := hl c (List.mem_cons_self c l)
    simp only [List.cons_append, takeDigits, if_pos hc, List.append_eq,
      ih (fun x hx => hl x (List.mem_cons_of_mem c hx))]

theorem parseNum_eq_some (cs ds rest : List Char) (h : takeDigits cs = (ds, rest))
    (hne : ds ≠ []) : parseNum cs = some (digitsVal 0 ds, rest) := by
  unfold parseNum
  rw [h]
  cases ds with
  | nil => exact absurd rfl hne
  | cons d ds => rfl

theorem parseNum_natToString (n : Nat) (rest : List Char) (hrest : notDigitHead rest) :
    parseNum ((natToString n).data ++ rest) = some (n, rest) := by
  rw [parseNum_eq_some ((natToString n).data ++ rest) (natToString n).data rest
    (takeDigits_spec _ rest (natToString_digits n) hrest) (natToString_ne_nil n)]
  rw [digitsVal_natToString]

/-! ### JavaScript values and JSON

`Json` models the JavaScript values the persistence layer stores and
decodes: `null`, booleans, (integer) numbers, strings, and plain objects
with ordered fields.  Arrays, float formatting, and string escape
sequences never occur in the records this layer writes and are outside the
model. -/

/-- A JavaScript value of the fragment handled by the persistence layer. -/
inductive Json where
  | null : Json
  | bool (b : Bool) : Json
  | num (n : Int) : Json
  | str (s : String) : Json
  | obj (fields : List (String × Json)) : Json

/-- Model of the JS string coercion `'' + val`. -/
def jsToString : Json → String
  | .null => "null"
  | .bool true => "true"
  | .bool false => "false"
  | .num n => intToString n
  | .str s => s
  | .obj _ => "[object Object]"

/-- Model of JS truthiness of a value. -/
def jsTruthy : Json → Bool
  | .null => false
  | .bool b => b
  | .num n => decide (n ≠ 0)
  | .str s => decide (s ≠ "")
  | .obj _ => true

/-- First binding of a field name in an object's field list. -/
def getEntry : List (String × Json) → String → Option Json
  | [], _ => none
  | (k, v) :: rest, key => if k = key then some v else getEntry rest key

/-- Model of reading a property: `undefined` (`none`) off objects. -/
def Json.getField : Json → String → Option Json
  | .obj fs, key => getEntry fs key
  | _, _ => none

/-- Overwrite a field in place, or append it; the update order of a JS
object literal `‹...spread, key: val›`. -/
def setField : List (String × Json) → String → Json → List (String × Json)
  | [], key, val => [(key, val)]
  | (k, v) :: rest, key, val =>
    if k = key then (key, val) :: rest else (k, v) :: setField rest key val

/-- Model of the JS object spread `‹...x›`: fields of an object, nothing
for any non-object value. -/
def jsSpread : Json → List (String × Json)
  | .obj fs => fs
  | _ => []

/-- Spread of a possibly-null value (`progressObject` may be `null` in JS
typing, though not when the lesson argument is present). -/
def jsSpreadOpt : Option Json → List (String × Json)
  | none => []
  | some j => jsSpread j

mutual

/-- Model of `JSON.stringify` on the stored fragment. -/
def Json.stringify : Json → String
  | .null => "null"
  | .bool true => "true"
  | .bool false => "false"
  | .num n => intToString n
  | .str s => "\"" ++ s ++ "\""
  | .obj [] => "\x7b\x7d"
  | .obj fs => "\x7b" ++ entriesString fs ++ "\x7d"

/-- The comma-separated `"key":value` entries of `JSON.stringify`. -/
def entriesString : List (String × Json) → String
  | [] => ""
  | [(k, v)] => "\"" ++ k ++ "\":" ++ Json.stringify v
  | (k, v) :: rest => "\"" ++ k ++ "\":" ++ Json.stringify v ++ "," ++ entriesString rest

end

/-- No double-quote character in the list (the string fragment whose
printing needs no escapes; every string `JSON.parse` below can produce
satisfies it). -/
def noQuote : List Char → Bool
  | [] => true
  | c :: rest => !(c = '"' : Bool) && noQuote rest

mutual

/-- The value lies in the fragment whose `stringify` output reparses
exactly: its strings and keys carry no double quote. -/
def Json.wfB : Json → Bool
  | .null => true
  | .bool _ => true
  | .num _ => true
  | .str s => noQuote s.data
  | .obj fs => wfEntriesB fs

/-- Entry-list version of `Json.wfB`. -/
def wfEntriesB : List (String × Json) → Bool
  | [] => true
  | (k, v) :: rest => noQuote k.data && Json.wfB v && wfEntriesB rest

end

/-! ### The JSON parser (`JSON.parse`) -/

/-- Consume an expected literal character sequence. -/
def dropLit : List Char → List Char → Option (List Char)
  | [], cs => some cs
  | _ :: _, [] => none
  | l :: ls, c :: cs => if c = l then dropLit ls cs else none

/-- Consume the body of a string literal up to its closing quote (the model
fragment has no escape sequences). -/
def parseStrChars : List Char → Option (List Char × List Char)
  | [] => none
  | c :: rest =>
    if c = '"' then some ([], rest)
    else (parseStrChars rest).map (fun p => (p.1.cons c, p.2))

/-- Recursive-descent core of `JSON.parse`.  With `inObj = false` it parses
one JSON value; with `inObj = true` it parses the nonempty entry list of an
object (after the opening brace), returning it wrapped in `Json.obj`.  The
fuel only has to exceed the length of the consumed text. -/
def parseCore : Nat → Bool → List Char → Option (Json × List Char)
  | 0, _, _ => none
  | fuel + 1, false, cs =>
    match cs with
    | [] => none
    | c :: rest =>
      if c = 'n' then (dropLit (['u', 'l', 'l']) rest).map (fun r => (Json.null, r))
      else if c = 't' then (dropLit (['r', 'u', 'e']) rest).map (fun r => (Json.bool true, r))
      else if c = 'f' then
        (dropLit (['a', 'l', 's', 'e']) rest).map (fun r => (Json.bool false, r))
      else if c = '"' then
        (parseStrChars rest).map (fun p => (Json.str (String.mk p.1), p.2))
      else if c = '\x7b' then
        match rest with
        | '\x7d' :: r2 => some (Json.obj [], r2)
        | _ => parseCore fuel true rest
      else if c = '-' then
        match parseNum rest with
        | some (n, r) => some (Json.num (-(n : Int)), r)
        | none => none
      else
        match parseNum (c :: rest) with
        | some (n, r) => some (Json.num ((n : Int)), r)
        | none => none
  | fuel + 1, true, cs =>
    match cs with
    | '"' :: rest =>
      match parseStrChars rest with
      | none => none
      | some (kcs, r1) =>
        match r1 with
        | ':' :: r2 =>
          match parseCore fuel false r2 with
          | none => none
          | some (v, r3) =>
            match r3 with
            | ',' :: r4 =>
              match parseCore fuel true r4 with
              | some (Json.obj fs, r) => some (Json.obj ((String.mk kcs, v) :: fs), r)
              | _ => none
            | '\x7d' :: r4 => some (Json.obj ([(String.mk kcs, v)]), r4)
            | _ => none
        | _ => none
    | _ => none

/-- Model of `JSON.parse` on the stored fragment: parse one value and
require the input to be exhausted; `none` is a thrown `SyntaxError`. -/
def Json.parse (s : String) : Option Json :=
  match parseCore (s.data.length + 1) false s.data with
  | some (j, []) => some j
  | _ => none

/-! ### `parseInt` and JS numbers -/

/-- A JS number as produced by `parseInt`: an integer or `NaN`. -/
inductive JSNumber where
  | nan : JSNumber
  | int (n : Int) : JSNumber
deriving DecidableEq

/-- Model of `parseInt(s, 10)`: skip whitespace, take an optional sign and
the longest run of leading decimal digits, ignore anything after it;
`NaN` when no digits are found.  It never throws. -/
def jsParseInt (s : String) : JSNumber :=
  match s.data.dropWhile Char.isWhitespace with
  | '-' :: rest =>
    match parseNum rest with
    | some (n, _) => .int (-(n : Int))
    | none => .nan
  | '+' :: rest =>
    match parseNum rest with
    | some (n, _) => .int ((n : Int))
    | none => .nan
  | cs =>
    match parseNum cs with
    | some (n, _) => .int ((n : Int))
    | none => .nan

/-! ### The key namespace (template literals of the source) -/

/-- A course identifier (the `Course` type alias of the app). -/
def Course : Type := String

/-- Key of the progress record of one lesson. -/
def progressKey (course : String) (lesson : Nat) : String :=
  "@activity/" ++ course ++ "/" ++ natToString lesson

/-- Key of the per-course most-recent-lesson pointer. -/
def mostRecentLessonKey (course : String) : String :=
  "@activity/" ++ course ++ "/most-recent-lesson"

/-- Key of the global most-recent-course pointer. -/
def mostRecentCourseKey : String := "@activity/most-recent-course"

/-- Key of a named preference. -/
def preferenceKey (name : String) : String := "@preferences/" ++ name

/-- Key of the metrics token. -/
def metricsTokenKey : String := "@metrics/user-token"

theorem string_append_cancel (a b c : String) (h : a ++ b = a ++ c) : b = c := by
  have hd := congrArg String.data h
  rw [String.data_append, String.data_append] at hd
  exact String.ext (List.append_cancel_left hd)

theorem natToString_ne_mrl (n : Nat) : natToString n ≠ "most-recent-lesson" := by
  intro heq
  have hd := natToString_digits n
  rw [heq] at hd
  exact absurd (hd 'm' (by decide)) (by decide)

theorem slash_append_ne_mostRecentCourseKey (z : String) (hz : '/' ∈ z.data) :
    "@activity/" ++ z ≠ mostRecentCourseKey := by
  intro heq
  have h2 : "@activity/" ++ z = "@activity/" ++ "most-recent-course" := heq
  have h3 := string_append_cancel _ _ _ h2
  rw [h3] at hz
  exact absurd hz (by decide)

theorem progressKey_ne_mostRecentLessonKey (c : String) (l : Nat) :
    progressKey c l ≠ mostRecentLessonKey c := by
  intro heq
  have hd := congrArg String.data heq
  unfold progressKey mostRecentLessonKey at hd
  simp only [String.data_append, List.append_assoc] at hd
  have h3 := List.append_cancel_left (List.append_cancel_left hd)
  simp only [List.cons_append, List.nil_append, List.cons.injEq, true_and] at h3
  have hm : 'm' ∈ (natToString l).data := by rw [h3]; decide
  exact absurd (natToString_digits l 'm' hm) (by decide)

theorem progressKey_ne_mostRecentCourseKey (c : String) (l : Nat) :
    progressKey c l ≠ mostRecentCourseKey := by
  intro heq
  unfold progressKey at heq
  have h2 : "@activity/" ++ (c ++ "/" ++ natToString l) = mostRecentCourseKey := by
    rw [show "@activity/" ++ (c ++ "/" ++ natToString l)
        = "@activity/" ++ c ++ "/" ++ natToString l by
      rw [String.append_assoc, String.append_assoc, String.append_assoc]]
    exact heq
  refine slash_append_ne_mostRecentCourseKey _ ?_ h2
  rw [String.data_append, String.data_append]
  simp

theorem mostRecentLessonKey_ne_mostRecentCourseKey (c : String) :
    mostRecentLessonKey c ≠ mostRecentCourseKey := by
  intro heq
  unfold mostRecentLessonKey at heq
  have h2 : "@activity/" ++ (c ++ "/most-recent-lesson") = mostRecentCourseKey := by
    rw [String.append_assoc] at heq
    exact heq
  refine slash_append_ne_mostRecentCourseKey _ ?_ h2
  rw [String.data_append]
  refine List.mem_append.mpr (Or.inr ?_)
  decide

theorem activity_ne_preferenceKey (z name : String) :
    "@activity/" ++ z ≠ preferenceKey name := by
  intro heq
  have hd := congrArg String.data heq
  unfold preferenceKey at hd
  rw [String.data_append, String.data_append] at hd
  rw [(rfl : "@activity/".data = ['@', 'a', 'c', 't', 'i', 'v', 'i', 't', 'y', '/']),
    (rfl : "@preferences/".data
      = ['@', 'p', 'r', 'e', 'f', 'e', 'r', 'e', 'n', 'c', 'e', 's', '/'])] at hd
  simp at hd

theorem progressKey_ne_preferenceKey (c : String) (l : Nat) (name : String) :
    progressKey c l ≠ preferenceKey name := by
  unfold progressKey
  rw [String.append_assoc, String.append_assoc]
  exact activity_ne_preferenceKey _ name

theorem mostRecentLessonKey_ne_preferenceKey (c : String) (name : String) :
    mostRecentLessonKey c ≠ preferenceKey name := by
  unfold mostRecentLessonKey
  rw [String.append_assoc]
  exact activity_ne_preferenceKey _ name

theorem mostRecentCourseKey_ne_preferenceKey (name : String) :
    mostRecentCourseKey ≠ preferenceKey name := by
  have h2 : mostRecentCourseKey = "@activity/" ++ "most-recent-course" := rfl
  rw [h2]
  exact activity_ne_preferenceKey _ name

/-! ### The persistence operations (the `gen*` functions of the source)

Each `async` function becomes a function of the store; functions that can
throw (only via `JSON.parse`) return `Except JSError`; functions that write
return the updated store. -/

/-- A thrown JS exception reaching a persistence call site (the only source
in this layer is `JSON.parse` on a malformed stored string). -/
inductive JSError where
  | jsonParse (input : String) : JSError

/-- The external collaborators of the layer: `DownloadManager.genIsDownloaded`
as a pure oracle (deletion requests are returned as a call list instead). -/
structure Env where
  isDownloaded : String → Nat → Bool

/-- The record `genProgressForLesson` returns for an unset key. -/
def defaultProgressRecord : Json :=
  Json.obj [(("finished"), Json.bool false), (("progress"), Json.null)]

/-- Model of `genMostRecentListenedLessonForCourse`: `null` when the key is
unset, otherwise `parseInt(stored, 10)` (which cannot throw). -/
def genMostRecentListenedLessonForCourse (course : String) (s : Store) : Option JSNumber :=
  match s.get (mostRecentLessonKey course) with
  | none => none
  | some mostRecentLesson => some (jsParseInt mostRecentLesson)

/-- Model of `genMostRecentListenedCourse`: the raw stored string. -/
def genMostRecentListenedCourse (s : Store) : Option String :=
  s.get mostRecentCourseKey

/-- Model of `genProgressForLesson`.  An absent lesson short-circuits to
`null`; an unset key yields the default record; otherwise the stored string
is `JSON.parse`d as-is (a malformed string throws). -/
def genProgressForLesson (course : String) (lesson : Option Nat) (s : Store) :
    Except JSError (Option Json) :=
  match lesson with
  | none => .ok none
  | some lesson =>
    match s.get (progressKey course lesson) with
    | none => .ok (some defaultProgressRecord)
    | some progress =>
      match Json.parse progress with
      | some j => .ok (some j)
      | none => .error (.jsonParse progress)

/-- Model of the `preference` factory: the getter/setter pair sharing one
key.  The getter returns the default when the key is unset (without
writing), else decodes the stored string; the setter persists `'' + val`.
The `log(...)` telemetry call after the write touches no store key and is
not modelled. -/
def preference (name : String) (defaultValue : Json)
    (fromString : String → Except JSError Json) :
    (Store → Except JSError (Json × Store)) × (Json → Store → Store) :=
  (fun s =>
    match s.get (preferenceKey name) with
    | none => .ok (defaultValue, s)
    | some val => (fromString val).map (fun v => (v, s)),
   fun val s => s.set (preferenceKey name) (jsToString val))

/-- Decoder `(b) => b === 'true'` of the boolean preferences. -/
def boolFromString (b : String) : Except JSError Json :=
  .ok (Json.bool (b == "true"))

/-- Decoder `(b) => b` of the string preferences. -/
def idFromString (b : String) : Except JSError Json :=
  .ok (Json.str b)

/-- Decoder `(o) => JSON.parse(o)` of the JSON preference. -/
def jsonFromString (o : String) : Except JSError Json :=
  match Json.parse o with
  | some j => .ok j
  | none => .error (.jsonParse o)

def genPreferenceAutoDeleteFinished : Store → Except JSError (Json × Store) :=
  (preference ("auto-delete-finished") (Json.bool false) boolFromString).1

def genSetPreferenceAutoDeleteFinished : Json → Store → Store :=
  (preference ("auto-delete-finished") (Json.bool false) boolFromString).2

def genPreferenceStreamQuality : Store → Except JSError (Json × Store) :=
  (preference ("stream-quality") (Json.str ("low")) idFromString).1

def genSetPreferenceStreamQuality : Json → Store → Store :=
  (preference ("stream-quality") (Json.str ("low")) idFromString).2

def genPreferenceDownloadQuality : Store → Except JSError (Json × Store) :=
  (preference ("download-quality") (Json.str ("high")) idFromString).1

def genSetPreferenceDownloadQuality : Json → Store → Store :=
  (preference ("download-quality") (Json.str ("high")) idFromString).2

def genPreferenceDownloadOnlyOnWifi : Store → Except JSError (Json × Store) :=
  (preference ("download-only-on-wifi") (Json.bool true) boolFromString).1

def genSetPreferenceDownloadOnlyOnWifi : Json → Store → Store :=
  (preference ("download-only-on-wifi") (Json.bool true) boolFromString).2

def genPreferenceAllowDataCollection : Store → Except JSError (Json × Store) :=
  (preference ("allow-data-collection") (Json.bool true) boolFromString).1

def genSetPreferenceAllowDataCollection : Json → Store → Store :=
  (preference ("allow-data-collection") (Json.bool true) boolFromString).2

def genPreferenceIsFirstLoad : Store → Except JSError (Json × Store) :=
  (preference ("is-first-load") (Json.bool true) boolFromString).1

def genSetPreferenceIsFirstLoad : Json → Store → Store :=
  (preference ("is-first-load") (Json.bool true) boolFromString).2

def genPreferenceRatingButtonDismissed : Store → Except JSError (Json × Store) :=
  (preference ("rating-button-dismissed")
    (Json.obj [(("dismissed"), Json.bool false)]) jsonFromString).1

def genSetPreferenceRatingButtonDismissed : Json → Store → Store :=
  (preference ("rating-button-dismissed")
    (Json.obj [(("dismissed"), Json.bool false)]) jsonFromString).2

def genPreferenceKillswitchCourseVersionV1 : Store → Except JSError (Json × Store) :=
  (preference ("killswitch-course-version-v1") (Json.bool false) boolFromString).1

def genSetPreferenceKillswitchCourseVersionV1 : Json → Store → Store :=
  (preference ("killswitch-course-version-v1") (Json.bool false) boolFromString).2

/-- Model of `genUpdateProgressForLesson`: read the current record, overlay
`progress`, and write the merged record plus the two recency pointers (the
three `Promise.all` writes, to pairwise distinct keys). -/
def genUpdateProgressForLesson (course : String) (lesson : Nat) (progress : Int)
    (s : Store) : Except JSError Store :=
  match genProgressForLesson course (some lesson) s with
  | .error e => .error e
  | .ok progressObject =>
    .ok (((s.set (progressKey course lesson)
          (Json.stringify
            (Json.obj (setField (jsSpreadOpt progressObject) ("progress") (Json.num progress))))).set
        (mostRecentLessonKey course) (natToString lesson)).set
      mostRecentCourseKey course)

/-- Model of `genMarkLessonFinished`: merge `finished: true`, write the
record and the recency pointers, then — if the auto-delete preference is
truthy and the lesson is downloaded — request one download deletion.  The
returned list holds the `DownloadManager.genDeleteDownload` calls made. -/
def genMarkLessonFinished (env : Env) (course : String) (lesson : Nat) (s : Store) :
    Except JSError (Store × List (String × Nat)) :=
  match genProgressForLesson course (some lesson) s with
  | .error e => .error e
  | .ok progressObject =>
    let s3 := ((s.set (progressKey course lesson)
          (Json.stringify
            (Json.obj (setField (jsSpreadOpt progressObject) ("finished") (Json.bool true))))).set
        (mostRecentLessonKey course) (natToString lesson)).set
      mostRecentCourseKey course
    match genPreferenceAutoDeleteFinished s3 with
    | .error e => .error e
    | .ok (autoDelete, s4) =>
      if jsTruthy autoDelete && env.isDownloaded course lesson then
        .ok (s4, [(course, lesson)])
      else .ok (s4, [])

/-- Model of `genDeleteProgressForCourse`: remove the per-course recency
key, conditionally the global recency key (only when it currently equals
this course), and the progress key of every lesson index the catalog
(`getLessonIndices`) reports. -/
def genDeleteProgressForCourse (getLessonIndices : String → List Nat) (course : String)
    (s : Store) : Store :=
  s.removeKeys
    ([mostRecentLessonKey course]
      ++ (if s.get mostRecentCourseKey = some course then [mostRecentCourseKey] else [])
      ++ (getLessonIndices course).map (progressKey course))

/-- Model of `genMetricsToken`: return the stored token if it is truthy
(non-null and nonempty), else persist and return the fresh `uuid()` draw
passed in as `freshToken`. -/
def genMetricsToken (freshToken : String) (s : Store) : String × Store :=
  match s.get metricsTokenKey with
  | some storedToken =>
    if storedToken = "" then (freshToken, s.set metricsTokenKey freshToken)
    else (storedToken, s)
  | none => (freshToken, s.set metricsTokenKey freshToken)

/-- Model of `genDeleteMetricsToken`. -/
def genDeleteMetricsToken (s : Store) : Store :=
  s.remove metricsTokenKey

/-! ### Parser correctness -/

theorem dropLit_append (lit rest : List Char) : dropLit lit (lit ++ rest) = some rest := by
  induction lit with
  | nil => rfl
  | cons c cs ih => simp [dropLit, ih]

theorem parseStrChars_append (l rest : List Char) (hq : noQuote l = true) :
    parseStrChars (l ++ '"' :: rest) = some (l, rest) := by
  induction l with
  | nil => simp [parseStrChars]
  | cons c cs ih =>
    simp only [noQuote, Bool.and_eq_true, Bool.not_eq_true'] at hq
    simp only [List.cons_append, parseStrChars, List.append_eq]
    rw [if_neg (by simpa using hq.1)]
    rw [ih hq.2]
    rfl

theorem parseStrChars_sound (cs : List Char) :
    ∀ l r, parseStrChars cs = some (l, r) → noQuote l = true := by
  induction cs with
  | nil => intro l r h; simp [parseStrChars] at h
  | cons c rest ih =>
    intro l r h
    simp only [parseStrChars] at h
    by_cases hc : c = '"'
    · rw [if_pos hc] at h
      simp only [Option.some.injEq, Prod.mk.injEq] at h
      obtain ⟨rfl, rfl⟩ := h
      rfl
    · rw [if_neg hc] at h
      obtain ⟨⟨l2, r2⟩, hp, heq⟩ := Option.map_eq_some'.mp h
      simp only [Prod.mk.injEq] at heq
      obtain ⟨rfl, rfl⟩ := heq
      simp only [List.cons, noQuote, Bool.and_eq_true]
      exact ⟨by simp [hc], ih l2 r2 hp⟩

theorem isDigit_ne (c : Char) (h : c.isDigit = true) :
    c ≠ 'n' ∧ c ≠ 't' ∧ c ≠ 'f' ∧ c ≠ '"' ∧ c ≠ '\x7b' ∧ c ≠ '-' ∧ c ≠ '+' := by
  refine ⟨?_, ?_, ?_, ?_, ?_, ?_, ?_⟩ <;>
    (rintro rfl; exact absurd h (by decide))

theorem isDigit_not_ws (c : Char) (h : c.isDigit = true) : c.isWhitespace = false := by
  cases hw : c.isWhitespace
  · rfl
  · exfalso
    simp only [Char.isWhitespace, Bool.or_eq_true, decide_eq_true_eq] at hw
    rcases hw with ((rfl | rfl) | rfl) | rfl <;> exact absurd h (by decide)

theorem getEntry_setField_self (fs : List (String × Json)) (k : String) (v : Json) :
    getEntry (setField fs k v) k = some v := by
  induction fs with
  | nil => simp [setField, getEntry]
  | cons hd tl ih =>
    obtain ⟨k1, v1⟩ := hd
    simp only [setField]
    by_cases h1 : k1 = k
    · rw [if_pos h1]; simp [getEntry]
    · rw [if_neg h1]
      simp only [getEntry, if_neg h1]
      exact ih

theorem getEntry_setField_ne (fs : List (String × Json)) (k : String) (v : Json)
    (k2 : String) (h : k ≠ k2) : getEntry (setField fs k v) k2 = getEntry fs k2 := by
  induction fs with
  | nil => simp [setField, getEntry, h]
  | cons hd tl ih =>
    obtain ⟨k1, v1⟩ := hd
    simp only [setField]
    by_cases h1 : k1 = k
    · rw [if_pos h1]
      simp only [getEntry, if_neg h, if_neg (h1 ▸ (fun hh => h hh) : ¬k1 = k2)]
    · rw [if_neg h1]
      simp only [getEntry]
      by_cases h2 : k1 = k2
      · rw [if_pos h2, if_pos h2]
      · rw [if_neg h2, if_neg h2]; exact ih

theorem wfB_obj (fs : List (String × Json)) : (Json.obj fs).wfB = wfEntriesB fs := by
  simp [Json.wfB]

theorem wfEntriesB_cons (k : String) (v : Json) (rest : List (String × Json)) :
    wfEntriesB ((k, v) :: rest)
      = (noQuote k.data && Json.wfB v && wfEntriesB rest) := by
  simp [wfEntriesB]

theorem wfEntriesB_setField (fs : List (String × Json)) (k : String) (v : Json)
    (hfs : wfEntriesB fs = true) (hk : noQuote k.data = true) (hv : Json.wfB v = true) :
    wfEntriesB (setField fs k v) = true := by
  induction fs with
  | nil => simp [setField, wfEntriesB_cons, hk, hv, hfs]
  | cons hd tl ih =>
    obtain ⟨k1, v1⟩ := hd
    rw [wfEntriesB_cons] at hfs
    simp only [Bool.and_eq_true] at hfs
    simp only [setField]
    by_cases h1 : k1 = k
    · rw [if_pos h1, wfEntriesB_cons]
      simp [hk, hv, hfs.2]
    · rw [if_neg h1, wfEntriesB_cons]
      simp [hfs.1.1, hfs.1.2, ih hfs.2]

theorem wfEntriesB_jsSpread (j : Json) (hj : Json.wfB j = true) :
    wfEntriesB (jsSpread j) = true := by
  cases j with
  | obj fs => rw [wfB_obj] at hj; exact hj
  | null => rfl
  | bool b => rfl
  | num n => rfl
  | str s => rfl

theorem wfEntriesB_nil : wfEntriesB [] = true := by simp [wfEntriesB]

theorem parseCore_sound (fuel : Nat) :
    ∀ (inObj : Bool) (cs : List Char) (j : Json) (r : List Char),
      parseCore fuel inObj cs = some (j, r) → Json.wfB j = true := by
  induction fuel with
  | zero => intro inObj cs j r h; simp [parseCore] at h
  | succ fuel ih =>
    intro inObj cs j r h
    cases inObj with
    | false =>
      cases cs with
      | nil => simp [parseCore] at h
      | cons c rest =>
        simp only [parseCore] at h
        by_cases h1 : c = 'n'
        · rw [if_pos h1] at h
          obtain ⟨r2, hr2, heq⟩ := Option.map_eq_some'.mp h
          simp only [Prod.mk.injEq] at heq
          obtain ⟨h3, h4⟩ := heq
          subst h3; rfl
        rw [if_neg h1] at h
        by_cases h2 : c = 't'
        · rw [if_pos h2] at h
          obtain ⟨r2, hr2, heq⟩ := Option.map_eq_some'.mp h
          simp only [Prod.mk.injEq] at heq
          obtain ⟨h3, h4⟩ := heq
          subst h3; rfl
        rw [if_neg h2] at h
        by_cases h3 : c = 'f'
        · rw [if_pos h3] at h
          obtain ⟨r2, hr2, heq⟩ := Option.map_eq_some'.mp h
          simp only [Prod.mk.injEq] at heq
          obtain ⟨h4, h5⟩ := heq
          subst h4; rfl
        rw [if_neg h3] at h
        by_cases h4 : c = '"'
        · rw [if_pos h4] at h
          obtain ⟨⟨l2, r2⟩, hp, heq⟩ := Option.map_eq_some'.mp h
          simp only [Prod.mk.injEq] at heq
          obtain ⟨h5, h6⟩ := heq
          subst h5
          have hq := parseStrChars_sound rest l2 r2 hp
          simp only [Json.wfB]
          exact hq
        rw [if_neg h4] at h
        by_cases h5 : c = '\x7b'
        · rw [if_pos h5] at h
          split at h
          · simp only [Option.some.injEq, Prod.mk.injEq] at h
            obtain ⟨h6, h7⟩ := h
            subst h6
            rw [wfB_obj]
            exact wfEntriesB_nil
          · exact ih true rest j r h
        rw [if_neg h5] at h
        by_cases h6 : c = '-'
        · rw [if_pos h6] at h
          split at h
          · simp only [Option.some.injEq, Prod.mk.injEq] at h
            obtain ⟨h7, h8⟩ := h
            subst h7; rfl
          · simp at h
        rw [if_neg h6] at h
        split at h
        · simp only [Option.some.injEq, Prod.mk.injEq] at h
          obtain ⟨h7, h8⟩ := h
          subst h7; rfl
        · simp at h
    | true =>
      simp only [parseCore] at h
      split at h
      · -- the entry list starts with a quoted key
        split at h
        · simp at h
        · rename_i kcs r1 hstr
          split at h
          · rename_i r2 hcolon
            split at h
            · simp at h
            · rename_i v r3 hval
              split at h
              · rename_i r4 hcomma
                split at h
                · rename_i fs r5 htail
                  simp only [Option.some.injEq, Prod.mk.injEq] at h
                  obtain ⟨h6, h7⟩ := h
                  subst h6
                  rw [wfB_obj, wfEntriesB_cons]
                  have hk := parseStrChars_sound _ _ _ hstr
                  have hv := ih false _ _ _ hval
                  have hfs := ih true _ _ _ htail
                  rw [wfB_obj] at hfs
                  simp [hk, hv, hfs]
                · simp at h
              · rename_i r4 hbrace
                simp only [Option.some.injEq, Prod.mk.injEq] at h
                obtain ⟨h6, h7⟩ := h
                subst h6
                rw [wfB_obj, wfEntriesB_cons]
                have hk := parseStrChars_sound _ _ _ hstr
                have hv := ih false _ _ _ hval
                simp [hk, hv, wfEntriesB_nil]
              · simp at h
          · simp at h
      · simp at h

theorem entriesString_single_data (k : String) (v : Json) :
    (entriesString ([(k, v)])).data
      = '"' :: (k.data ++ '"' :: ':' :: (Json.stringify v).data) := by
  simp [entriesString, String.data_append]

theorem entriesString_cons_data (k : String) (v : Json) (e2 : String × Json)
    (ts : List (String × Json)) :
    (entriesString ((k, v) :: e2 :: ts)).data
      = '"' :: (k.data ++ '"' :: ':'
          :: ((Json.stringify v).data ++ ',' :: (entriesString (e2 :: ts)).data)) := by
  simp [entriesString, String.data_append]

theorem entriesString_head (k : String) (v : Json) (tail : List (String × Json)) :
    ∃ tl, (entriesString ((k, v) :: tail)).data = '"' :: tl := by
  cases tail with
  | nil => exact ⟨_, entriesString_single_data k v⟩
  | cons e2 ts => exact ⟨_, entriesString_cons_data k v e2 ts⟩

theorem parseCore_stringify :
    ∀ fuel : Nat,
      (∀ (j : Json) (rest : List Char), Json.wfB j = true → notDigitHead rest →
        (Json.stringify j).data.length < fuel →
        parseCore fuel false ((Json.stringify j).data ++ rest) = some (j, rest))
      ∧ (∀ (fs : List (String × Json)) (rest : List Char), fs ≠ [] →
        wfEntriesB fs = true → (entriesString fs).data.length < fuel →
        parseCore fuel true ((entriesString fs).data ++ '\x7d' :: rest)
          = some (Json.obj fs, rest)) := by
  intro fuel
  induction fuel with
  | zero =>
    constructor
    · intro j rest _ _ hlen; exact absurd hlen (Nat.not_lt_zero _)
    · intro fs rest _ _ hlen; exact absurd hlen (Nat.not_lt_zero _)
  | succ fuel ih =>
    constructor
    · intro j rest hwf hrest hlen
      cases j with
      | null =>
        rw [show Json.stringify Json.null = "null" by simp [Json.stringify],
          (rfl : ("null").data = ['n', 'u', 'l', 'l'])]
        simp [parseCore, dropLit]
      | bool b =>
        cases b with
        | true =>
          rw [show Json.stringify (Json.bool true) = "true" by simp [Json.stringify],
            (rfl : ("true").data = ['t', 'r', 'u', 'e'])]
          simp [parseCore, dropLit]
        | false =>
          rw [show Json.stringify (Json.bool false) = "false" by simp [Json.stringify],
            (rfl : ("false").data = ['f', 'a', 'l', 's', 'e'])]
          simp [parseCore, dropLit]
      | num n =>
        by_cases hneg : n < 0
        · rw [show Json.stringify (Json.num n) = "-" ++ natToString n.natAbs by
            simp [Json.stringify, intToString, hneg]]
          rw [String.data_append, (rfl : ("-").data = ['-'])]
          simp [parseCore, parseNum_natToString _ rest hrest]
          rw [abs_of_neg hneg, neg_neg]
        · rw [show Json.stringify (Json.num n) = natToString n.toNat by
            simp [Json.stringify, intToString, hneg]]
          obtain ⟨c, tail, hct⟩ := List.exists_cons_of_ne_nil (natToString_ne_nil n.toNat)
          have hc : c.isDigit = true := by
            refine natToString_digits n.toNat c ?_
            rw [hct]; exact List.mem_cons_self c tail
          rw [hct]
          simp only [List.cons_append, parseCore]
          obtain ⟨e1, e2, e3, e4, e5, e6, _⟩ := isDigit_ne c hc
          rw [if_neg e1, if_neg e2, if_neg e3, if_neg e4, if_neg e5, if_neg e6]
          rw [show c :: (tail ++ rest) = (natToString n.toNat).data ++ rest by
            rw [hct]; rfl]
          rw [parseNum_natToString n.toNat rest hrest]
          show some (Json.num ((n.toNat : Int)), rest) = some (Json.num n, rest)
          rw [Int.toNat_of_nonneg (not_lt.mp hneg)]
      | str s =>
        rw [show Json.stringify (Json.str s) = "\"" ++ s ++ "\"" by simp [Json.stringify]]
        have hq : noQuote s.data = true := by
          rw [show Json.wfB (Json.str s) = noQuote s.data by simp [Json.wfB]] at hwf
          exact hwf
        rw [show ("\"" ++ s ++ "\"").data ++ rest = '"' :: (s.data ++ ('"' :: rest)) by
          simp [String.data_append]]
        simp only [parseCore]
        simp only [parseStrChars_append s.data rest hq]
        simp [String.ext rfl]
      | obj fs =>
        cases fs with
        | nil =>
          rw [show Json.stringify (Json.obj []) = "\x7b\x7d" by simp [Json.stringify],
            (rfl : ("\x7b\x7d").data = ['\x7b', '\x7d'])]
          simp [parseCore]
        | cons e tail =>
          obtain ⟨k, v⟩ := e
          have hs : Json.stringify (Json.obj ((k, v) :: tail))
              = "\x7b" ++ entriesString ((k, v) :: tail) ++ "\x7d" := by
            simp [Json.stringify]
          rw [hs]
          obtain ⟨tl, htl⟩ := entriesString_head k v tail
          rw [show ("\x7b" ++ entriesString ((k, v) :: tail) ++ "\x7d").data ++ rest
              = '\x7b' :: ((entriesString ((k, v) :: tail)).data ++ '\x7d' :: rest) by
            simp [String.data_append]]
          have hlen2 : (entriesString ((k, v) :: tail)).data.length < fuel := by
            rw [hs] at hlen
            simp only [String.data_append, List.length_append] at hlen
            simp only [(rfl : ("\x7b").data = ['\x7b']), (rfl : ("\x7d").data = ['\x7d']),
              List.length_cons, List.length_nil] at hlen
            omega
          have hwf2 : wfEntriesB ((k, v) :: tail) = true := by
            rw [wfB_obj] at hwf; exact hwf
          rw [htl]
          show parseCore fuel true (('"' :: tl) ++ '\x7d' :: rest)
            = some (Json.obj ((k, v) :: tail), rest)
          rw [← htl]
          exact ih.2 ((k, v) :: tail) rest (List.cons_ne_nil _ _) hwf2 hlen2
    · intro fs rest hne hwf hlen
      cases fs with
      | nil => exact absurd rfl hne
      | cons e tail =>
        obtain ⟨k, v⟩ := e
        rw [wfEntriesB_cons] at hwf
        simp only [Bool.and_eq_true] at hwf
        cases tail with
        | nil =>
          rw [entriesString_single_data] at hlen ⊢
          simp only [List.length_cons, List.length_append] at hlen
          have hvlen : (Json.stringify v).data.length < fuel := by omega
          rw [show ('"' :: (k.data ++ '"' :: ':' :: (Json.stringify v).data)) ++ '\x7d' :: rest
              = '"' :: (k.data ++ '"' :: (':' :: ((Json.stringify v).data ++ '\x7d' :: rest))) by
            simp]
          simp only [parseCore]
          rw [parseStrChars_append k.data _ hwf.1.1]
          have hv := ih.1 v ('\x7d' :: rest) hwf.1.2
            (by decide : ('\x7d' : Char).isDigit = false) hvlen
          simp only [hv]
        | cons e2 ts =>
          rw [entriesString_cons_data] at hlen ⊢
          simp only [List.length_cons, List.length_append] at hlen
          have hvlen : (Json.stringify v).data.length < fuel := by omega
          have htlen : (entriesString (e2 :: ts)).data.length < fuel := by omega
          rw [show ('"' :: (k.data ++ '"' :: ':'
                :: ((Json.stringify v).data ++ ',' :: (entriesString (e2 :: ts)).data)))
                ++ '\x7d' :: rest
              = '"' :: (k.data ++ '"' :: (':' :: ((Json.stringify v).data
                ++ ',' :: ((entriesString (e2 :: ts)).data ++ '\x7d' :: rest)))) by
            simp]
          simp only [parseCore]
          rw [parseStrChars_append k.data _ hwf.1.1]
          have hv := ih.1 v (',' :: ((entriesString (e2 :: ts)).data ++ '\x7d' :: rest))
            hwf.1.2 (by decide : (',' : Char).isDigit = false) hvlen
          have ht := ih.2 (e2 :: ts) rest (List.cons_ne_nil _ _) hwf.2 htlen
          simp only [hv]
          simp only [ht]

theorem Json.parse_stringify (j : Json) (hj : Json.wfB j = true) :
    Json.parse (Json.stringify j) = some j := by
  unfold Json.parse
  have h := (parseCore_stringify ((Json.stringify j).data.length + 1)).1 j [] hj
    trivial (Nat.lt_succ_self _)
  rw [List.append_nil] at h
  rw [h]

theorem Json.parse_wfB (s : String) (j : Json) (h : Json.parse s = some j) :
    Json.wfB j = true := by
  unfold Json.parse at h
  split at h
  · rename_i j2 heq
    simp only [Option.some.injEq] at h
    subst h
    exact parseCore_sound _ _ _ _ _ heq
  · simp at h

theorem jsParseInt_natToString (n : Nat) :
    jsParseInt (natToString n) = JSNumber.int ((n : Int)) := by
  obtain ⟨c, tail, hct⟩ := List.exists_cons_of_ne_nil (natToString_ne_nil n)
  have hc : c.isDigit = true := by
    refine natToString_digits n c ?_
    rw [hct]; exact List.mem_cons_self c tail
  obtain ⟨_, _, _, _, _, e6, e7⟩ := isDigit_ne c hc
  have hnum : parseNum ((natToString n).data) = some (n, []) := by
    have := parseNum_natToString n [] trivial
    rwa [List.append_nil] at this
  unfold jsParseInt
  rw [hct]
  rw [List.dropWhile_cons, if_neg (by simp [isDigit_not_ws c hc])]
  rw [hct] at hnum
  split
  · rename_i rest2 heq
    exact absurd (List.cons.injEq .. ▸ heq).1 e6
  · rename_i rest2 heq
    exact absurd (List.cons.injEq .. ▸ heq).1 e7
  · rw [hnum]

/-! ### Reading around the three-key write batch of a progress mutation -/

theorem get_writes_pref (s : Store) (c : String) (l : Nat) (v1 v2 : String) (name : String) :
    (((s.set (progressKey c l) v1).set (mostRecentLessonKey c) v2).set
        mostRecentCourseKey c).get (preferenceKey name)
      = s.get (preferenceKey name) := by
  rw [Store.get_set, if_neg (mostRecentCourseKey_ne_preferenceKey name),
    Store.get_set, if_neg (mostRecentLessonKey_ne_preferenceKey c name),
    Store.get_set, if_neg (progressKey_ne_preferenceKey c l name)]

theorem get_writes_progress (s : Store) (c : String) (l : Nat) (v1 v2 : String) :
    (((s.set (progressKey c l) v1).set (mostRecentLessonKey c) v2).set
        mostRecentCourseKey c).get (progressKey c l) = some v1 := by
  rw [Store.get_set, if_neg (Ne.symm (progressKey_ne_mostRecentCourseKey c l)),
    Store.get_set, if_neg (Ne.symm (progressKey_ne_mostRecentLessonKey c l)),
    Store.get_set, if_pos rfl]

theorem get_writes_mostRecentCourse (s : Store) (c : String) (l : Nat) (v1 v2 : String) :
    (((s.set (progressKey c l) v1).set (mostRecentLessonKey c) v2).set
        mostRecentCourseKey c).get mostRecentCourseKey = some c := by
  rw [Store.get_set, if_pos rfl]

theorem get_writes_mostRecentLesson (s : Store) (c : String) (l : Nat) (v1 v2 : String) :
    (((s.set (progressKey c l) v1).set (mostRecentLessonKey c) v2).set
        mostRecentCourseKey c).get (mostRecentLessonKey c) = some v2 := by
  rw [Store.get_set, if_neg (Ne.symm (mostRecentLessonKey_ne_mostRecentCourseKey c)),
    Store.get_set, if_pos rfl]

/-! ### The claims -/

/-- Claim C8: `genProgressForLesson` returns `null` whenever the lesson
argument is absent — for every store, so without consulting it — and
returns the default record `finished: false, progress: null` whenever the
lesson's progress key is unset. -/
theorem progressForLesson_absent_defaults (course : String) (s : Store) :
    genProgressForLesson course none s = .ok none
      ∧ (∀ l : Nat, s.get (progressKey course l) = none →
        genProgressForLesson course (some l) s = .ok (some defaultProgressRecord)) := by
  constructor
  · rfl
  · intro l h
    simp [genProgressForLesson, h]

/-- Witness for C8 at a store holding an unrelated key. -/
theorem progressForLesson_absent_defaults_witness :
    genProgressForLesson ("spanish") (some 3) [(("other-key"), ("x"))]
      = .ok (some defaultProgressRecord) :=
  (progressForLesson_absent_defaults ("spanish") [(("other-key"), ("x"))]).2 3 (by decide)

/-- Claim C9: every one of the eight fixed preferences returns its default
when its key is unset, and the getter hands back the store unchanged (the
default is not persisted). -/
theorem preference_defaults (s : Store) :
    (s.get (preferenceKey ("auto-delete-finished")) = none →
      genPreferenceAutoDeleteFinished s = .ok (Json.bool false, s))
    ∧ (s.get (preferenceKey ("stream-quality")) = none →
      genPreferenceStreamQuality s = .ok (Json.str ("low"), s))
    ∧ (s.get (preferenceKey ("download-quality")) = none →
      genPreferenceDownloadQuality s = .ok (Json.str ("high"), s))
    ∧ (s.get (preferenceKey ("download-only-on-wifi")) = none →
      genPreferenceDownloadOnlyOnWifi s = .ok (Json.bool true, s))
    ∧ (s.get (preferenceKey ("allow-data-collection")) = none →
      genPreferenceAllowDataCollection s = .ok (Json.bool true, s))
    ∧ (s.get (preferenceKey ("is-first-load")) = none →
      genPreferenceIsFirstLoad s = .ok (Json.bool true, s))
    ∧ (s.get (preferenceKey ("rating-button-dismissed")) = none →
      genPreferenceRatingButtonDismissed s
        = .ok (Json.obj [(("dismissed"), Json.bool false)], s))
    ∧ (s.get (preferenceKey ("killswitch-course-version-v1")) = none →
      genPreferenceKillswitchCourseVersionV1 s = .ok (Json.bool false, s)) := by
  refine ⟨?_, ?_, ?_, ?_, ?_, ?_, ?_, ?_⟩ <;>
    (intro h
     first
     | simp [genPreferenceAutoDeleteFinished, preference, h]
     | simp [genPreferenceStreamQuality, preference, h]
     | simp [genPreferenceDownloadQuality, preference, h]
     | simp [genPreferenceDownloadOnlyOnWifi, preference, h]
     | simp [genPreferenceAllowDataCollection, preference, h]
     | simp [genPreferenceIsFirstLoad, preference, h]
     | simp [genPreferenceRatingButtonDismissed, preference, h]
     | simp [genPreferenceKillswitchCourseVersionV1, preference, h])

/-- Witness for C9 on the empty store. -/
theorem preference_defaults_witness :
    genPreferenceAutoDeleteFinished [] = .ok (Json.bool false, [])
      ∧ genPreferenceStreamQuality [] = .ok (Json.str ("low"), [])
      ∧ genPreferenceDownloadQuality [] = .ok (Json.str ("high"), [])
      ∧ genPreferenceDownloadOnlyOnWifi [] = .ok (Json.bool true, [])
      ∧ genPreferenceAllowDataCollection [] = .ok (Json.bool true, [])
      ∧ genPreferenceIsFirstLoad [] = .ok (Json.bool true, [])
      ∧ genPreferenceRatingButtonDismissed []
        = .ok (Json.obj [(("dismissed"), Json.bool false)], [])
      ∧ genPreferenceKillswitchCourseVersionV1 [] = .ok (Json.bool false, []) := by
  have h := preference_defaults []
  exact ⟨h.1 rfl, h.2.1 rfl, h.2.2.1 rfl, h.2.2.2.1 rfl, h.2.2.2.2.1 rfl,
    h.2.2.2.2.2.1 rfl, h.2.2.2.2.2.2.1 rfl, h.2.2.2.2.2.2.2 rfl⟩

/-- Claim C1 fails on the JSON preference: the counterexample sets
`rating-button-dismissed` to the object `dismissed: true` on the empty
store; the generic setter coerces it to "[object Object]", so the getter's
`JSON.parse` throws instead of returning the value. -/
theorem preference_roundtrip_counterexample :
    genPreferenceRatingButtonDismissed
        (genSetPreferenceRatingButtonDismissed
          (Json.obj [(("dismissed"), Json.bool true)]) [])
      = .error (.jsonParse ("[object Object]")) := rfl

/-- Claim C1 amended: the set-then-get round trip holds for the five
boolean preferences and the two string preferences; for the JSON
preference `rating-button-dismissed` it fails for every object value —
the setter persists `'' + val = "[object Object]"` and the getter's
`JSON.parse` then throws a decode error. -/
theorem preference_roundtrip_amended (s : Store) :
    (∀ b : Bool,
      genPreferenceAutoDeleteFinished (genSetPreferenceAutoDeleteFinished (Json.bool b) s)
        = .ok (Json.bool b, genSetPreferenceAutoDeleteFinished (Json.bool b) s))
    ∧ (∀ v : String,
      genPreferenceStreamQuality (genSetPreferenceStreamQuality (Json.str v) s)
        = .ok (Json.str v, genSetPreferenceStreamQuality (Json.str v) s))
    ∧ (∀ v : String,
      genPreferenceDownloadQuality (genSetPreferenceDownloadQuality (Json.str v) s)
        = .ok (Json.str v, genSetPreferenceDownloadQuality (Json.str v) s))
    ∧ (∀ b : Bool,
      genPreferenceDownloadOnlyOnWifi (genSetPreferenceDownloadOnlyOnWifi (Json.bool b) s)
        = .ok (Json.bool b, genSetPreferenceDownloadOnlyOnWifi (Json.bool b) s))
    ∧ (∀ b : Bool,
      genPreferenceAllowDataCollection (genSetPreferenceAllowDataCollection (Json.bool b) s)
        = .ok (Json.bool b, genSetPreferenceAllowDataCollection (Json.bool b) s))
    ∧ (∀ b : Bool,
      genPreferenceIsFirstLoad (genSetPreferenceIsFirstLoad (Json.bool b) s)
        = .ok (Json.bool b, genSetPreferenceIsFirstLoad (Json.bool b) s))
    ∧ (∀ b : Bool,
      genPreferenceKillswitchCourseVersionV1
          (genSetPreferenceKillswitchCourseVersionV1 (Json.bool b) s)
        = .ok (Json.bool b, genSetPreferenceKillswitchCourseVersionV1 (Json.bool b) s))
    ∧ (∀ fields : List (String × Json),
      genPreferenceRatingButtonDismissed
          (genSetPreferenceRatingButtonDismissed (Json.obj fields) s)
        = .error (.jsonParse ("[object Object]"))) := by
  have hp : Json.parse ("[object Object]") = none := rfl
  refine ⟨?_, ?_, ?_, ?_, ?_, ?_, ?_, ?_⟩
  · intro b
    cases b <;>
      simp [genPreferenceAutoDeleteFinished, genSetPreferenceAutoDeleteFinished,
        preference, jsToString, boolFromString, Store.set, Store.get, Except.map]
  · intro v
    simp [genPreferenceStreamQuality, genSetPreferenceStreamQuality,
      preference, jsToString, idFromString, Store.set, Store.get, Except.map]
  · intro v
    simp [genPreferenceDownloadQuality, genSetPreferenceDownloadQuality,
      preference, jsToString, idFromString, Store.set, Store.get, Except.map]
  · intro b
    cases b <;>
      simp [genPreferenceDownloadOnlyOnWifi, genSetPreferenceDownloadOnlyOnWifi,
        preference, jsToString, boolFromString, Store.set, Store.get, Except.map]
  · intro b
    cases b <;>
      simp [genPreferenceAllowDataCollection, genSetPreferenceAllowDataCollection,
        preference, jsToString, boolFromString, Store.set, Store.get, Except.map]
  · intro b
    cases b <;>
      simp [genPreferenceIsFirstLoad, genSetPreferenceIsFirstLoad,
        preference, jsToString, boolFromString, Store.set, Store.get, Except.map]
  · intro b
    cases b <;>
      simp [genPreferenceKillswitchCourseVersionV1, genSetPreferenceKillswitchCourseVersionV1,
        preference, jsToString, boolFromString, Store.set, Store.get, Except.map]
  · intro fields
    simp [genPreferenceRatingButtonDismissed, genSetPreferenceRatingButtonDismissed,
      preference, jsToString, jsonFromString, Store.set, Store.get, hp, Except.map]

/-- Claim C2 fails on the recency pointer: a non-numeric stored string does
not raise a decode exception — `parseInt` yields `NaN`, which is returned
as an ordinary value. -/
theorem recency_decode_nan_counterexample :
    genMostRecentListenedLessonForCourse ("c")
        [((mostRecentLessonKey ("c")), ("oops"))] = some JSNumber.nan := rfl

/-- Claim C2 amended: a malformed JSON string under a progress key makes
`genProgressForLesson` propagate the decode exception uncaught and
undefaulted; but `genMostRecentListenedLessonForCourse` never throws — it
returns `parseInt` of whatever string is stored (`NaN` included). -/
theorem decode_failure_propagation :
    (∀ (course : String) (l : Nat) (s : Store) (stored : String),
      s.get (progressKey course l) = some stored → Json.parse stored = none →
      genProgressForLesson course (some l) s = .error (.jsonParse stored))
    ∧ (∀ (course : String) (s : Store) (stored : String),
      s.get (mostRecentLessonKey course) = some stored →
      genMostRecentListenedLessonForCourse course s = some (jsParseInt stored)) := by
  constructor
  · intro course l s stored h1 h2
    simp [genProgressForLesson, h1, h2]
  · intro course s stored h
    simp [genMostRecentListenedLessonForCourse, h]

/-- Witness for the amended C2 at concrete malformed stores. -/
theorem decode_failure_propagation_witness :
    genProgressForLesson ("c") (some 0) [((progressKey ("c") 0), ("nope"))]
      = .error (.jsonParse ("nope"))
    ∧ genMostRecentListenedLessonForCourse ("c") [((mostRecentLessonKey ("c")), ("abc"))]
      = some (jsParseInt ("abc")) :=
  ⟨decode_failure_propagation.1 ("c") 0 _ ("nope") rfl rfl,
   decode_failure_propagation.2 ("c") _ ("abc") rfl⟩

theorem genMetricsToken_of_none (t : String) (s : Store)
    (h : s.get metricsTokenKey = none) :
    genMetricsToken t s = (t, s.set metricsTokenKey t) := by
  simp [genMetricsToken, h]

theorem genMetricsToken_stored (t tok : String) (s : Store)
    (h : s.get metricsTokenKey = some tok) (ht : ¬tok = "") :
    genMetricsToken t s = (tok, s) := by
  simp [genMetricsToken, h, ht]

/-- Claim C10: when the stored metrics token is the empty string the
truthiness test fails, so `genMetricsToken` ignores the stored value,
persists the fresh draw, and returns it. -/
theorem metricsToken_empty_string_regenerated (s : Store) (freshToken : String)
    (h : s.get metricsTokenKey = some ("")) :
    genMetricsToken freshToken s = (freshToken, s.set metricsTokenKey freshToken) := by
  simp [genMetricsToken, h]

/-- Witness for C10 at a store holding the empty-string token. -/
theorem metricsToken_empty_string_regenerated_witness :
    genMetricsToken ("fresh-token") [(metricsTokenKey, (""))]
      = (("fresh-token"),
          Store.set [(metricsTokenKey, (""))] metricsTokenKey ("fresh-token")) :=
  metricsToken_empty_string_regenerated [(metricsTokenKey, (""))] ("fresh-token") rfl

/-- Claim C7: with nonempty (uuid-shaped) draws, a second `genMetricsToken`
call returns the very token of the first call and leaves the store exactly
as it was; after `genDeleteMetricsToken`, the next call returns the fresh
draw — different from the earlier token whenever the draws differ (uuid
collision-freedom is the `hfresh` hypothesis). -/
theorem metricsToken_stable_and_fresh (s : Store) (t1 t2 t3 : String)
    (h1 : t1 ≠ "") (hfresh : t3 ≠ (genMetricsToken t1 s).1) :
    genMetricsToken t2 (genMetricsToken t1 s).2 = genMetricsToken t1 s
    ∧ (genMetricsToken t3 (genDeleteMetricsToken (genMetricsToken t1 s).2)).1 = t3
    ∧ (genMetricsToken t3 (genDeleteMetricsToken (genMetricsToken t1 s).2)).1
        ≠ (genMetricsToken t1 s).1 := by
  have hset : ∀ v : String, (s.set metricsTokenKey v).get metricsTokenKey = some v := by
    intro v; rw [Store.get_set, if_pos rfl]
  have hpart1 : genMetricsToken t2 (genMetricsToken t1 s).2 = genMetricsToken t1 s := by
    rcases hs : s.get metricsTokenKey with _ | tok
    · rw [genMetricsToken_of_none t1 s hs]
      exact genMetricsToken_stored t2 t1 _ (hset t1) h1
    · by_cases htok : tok = ""
      · subst htok
        rw [metricsToken_empty_string_regenerated s t1 hs]
        exact genMetricsToken_stored t2 t1 _ (hset t1) h1
      · rw [genMetricsToken_stored t1 tok s hs htok]
        exact genMetricsToken_stored t2 tok s hs htok
  have hpart2 :
      genMetricsToken t3 (genDeleteMetricsToken (genMetricsToken t1 s).2)
        = (t3, (genDeleteMetricsToken (genMetricsToken t1 s).2).set metricsTokenKey t3) :=
    genMetricsToken_of_none t3 _ (Store.get_remove_self _ metricsTokenKey)
  refine ⟨hpart1, ?_, ?_⟩
  · rw [hpart2]
  · rw [hpart2]; exact hfresh

/-- Witness for C7 on the empty store with distinct concrete draws. -/
theorem metricsToken_stable_and_fresh_witness :
    genMetricsToken ("uuid-b") (genMetricsToken ("uuid-a") []).2
      = genMetricsToken ("uuid-a") []
    ∧ (genMetricsToken ("uuid-c")
        (genDeleteMetricsToken (genMetricsToken ("uuid-a") []).2)).1 = ("uuid-c")
    ∧ (genMetricsToken ("uuid-c")
        (genDeleteMetricsToken (genMetricsToken ("uuid-a") []).2)).1
      ≠ (genMetricsToken ("uuid-a") []).1 :=
  metricsToken_stable_and_fresh [] ("uuid-a") ("uuid-b") ("uuid-c")
    (by decide) (by decide)

theorem wfB_num (n : Int) : Json.wfB (Json.num n) = true := by simp [Json.wfB]

theorem wfB_bool (b : Bool) : Json.wfB (Json.bool b) = true := by simp [Json.wfB]

theorem wfB_defaultProgressRecord : Json.wfB defaultProgressRecord = true := by
  simp [defaultProgressRecord, Json.wfB, wfEntriesB, noQuote]

theorem getField_jsSpread (j : Json) (key : String) :
    getEntry (jsSpread j) key = j.getField key := by
  cases j <;> rfl

/-- Claim C4: deleting a course's progress removes the progress key of
every lesson index the catalog reports and the per-course recency key;
the global most-recent-course pointer is unset exactly when it pointed at
this course, and untouched when it pointed at a different one. -/
theorem deleteProgressForCourse_spec (getLessonIndices : String → List Nat)
    (course : String) (s : Store) :
    (∀ l ∈ getLessonIndices course,
      (genDeleteProgressForCourse getLessonIndices course s).get (progressKey course l)
        = none)
    ∧ (genDeleteProgressForCourse getLessonIndices course s).get (mostRecentLessonKey course)
        = none
    ∧ (s.get mostRecentCourseKey = some course →
      (genDeleteProgressForCourse getLessonIndices course s).get mostRecentCourseKey = none)
    ∧ (∀ d : String, d ≠ course → s.get mostRecentCourseKey = some d →
      (genDeleteProgressForCourse getLessonIndices course s).get mostRecentCourseKey
        = some d) := by
  unfold genDeleteProgressForCourse
  refine ⟨?_, ?_, ?_, ?_⟩
  · intro l hl
    rw [Store.get_removeKeys]
    rw [if_pos]
    simp only [List.mem_append, List.mem_map, List.mem_singleton]
    exact Or.inr ⟨l, hl, rfl⟩
  · rw [Store.get_removeKeys]
    rw [if_pos]
    simp only [List.mem_append, List.mem_singleton]
    exact Or.inl (Or.inl trivial)
  · intro h
    rw [Store.get_removeKeys]
    rw [if_pos]
    rw [if_pos h]
    simp only [List.mem_append, List.mem_singleton]
    exact Or.inl (Or.inr trivial)
  · intro d hd h
    rw [Store.get_removeKeys]
    rw [if_neg, h]
    rw [if_neg (by rw [h]; simp [hd] : ¬s.get mostRecentCourseKey = some course)]
    simp only [List.mem_append, List.mem_singleton, List.mem_map, List.append_nil,
      List.not_mem_nil, or_false, false_or, not_or, not_exists, not_and]
    constructor
    · exact fun hh => mostRecentLessonKey_ne_mostRecentCourseKey course hh.symm
    · intro l _ hh
      exact progressKey_ne_mostRecentCourseKey course l hh

/-- Witness for C4: a two-lesson course whose progress and both recency
pointers are stored, with the global pointer at this course. -/
theorem deleteProgressForCourse_spec_witness :
    (∀ l ∈ [0, 1],
      (genDeleteProgressForCourse (fun _ => [0, 1]) ("c")
          [((progressKey ("c") 0), ("p0")), ((progressKey ("c") 1), ("p1")),
            ((mostRecentLessonKey ("c")), ("1")), ((mostRecentCourseKey), ("c"))]).get
        (progressKey ("c") l) = none)
    ∧ (genDeleteProgressForCourse (fun _ => [0, 1]) ("c")
          [((progressKey ("c") 0), ("p0")), ((progressKey ("c") 1), ("p1")),
            ((mostRecentLessonKey ("c")), ("1")), ((mostRecentCourseKey), ("c"))]).get
        (mostRecentLessonKey ("c")) = none
    ∧ (genDeleteProgressForCourse (fun _ => [0, 1]) ("c")
          [((progressKey ("c") 0), ("p0")), ((progressKey ("c") 1), ("p1")),
            ((mostRecentLessonKey ("c")), ("1")), ((mostRecentCourseKey), ("c"))]).get
        mostRecentCourseKey = none := by
  have h := deleteProgressForCourse_spec (fun _ => [0, 1]) ("c")
    [((progressKey ("c") 0), ("p0")), ((progressKey ("c") 1), ("p1")),
      ((mostRecentLessonKey ("c")), ("1")), ((mostRecentCourseKey), ("c"))]
  exact ⟨h.1, h.2.1, h.2.2.1 (by decide)⟩

/-- Claim C5: after `genUpdateProgressForLesson(C, L, N)` the global
most-recent-course pointer reads `C` and the per-course most-recent-lesson
pointer reads `L`, whatever the two pointers held before. -/
theorem updateProgress_sets_recency (course : String) (lesson : Nat) (pr : Int)
    (s : Store) (j : Json)
    (hprev : genProgressForLesson course (some lesson) s = .ok (some j)) :
    ∃ s2, genUpdateProgressForLesson course lesson pr s = .ok s2
      ∧ genMostRecentListenedCourse s2 = some course
      ∧ genMostRecentListenedLessonForCourse course s2
          = some (JSNumber.int ((lesson : Int))) := by
  unfold genUpdateProgressForLesson
  rw [hprev]
  refine ⟨_, rfl, ?_, ?_⟩
  · unfold genMostRecentListenedCourse
    rw [get_writes_mostRecentCourse]
  · unfold genMostRecentListenedLessonForCourse
    rw [get_writes_mostRecentLesson]
    show some (jsParseInt (natToString lesson)) = some (JSNumber.int ((lesson : Int)))
    rw [jsParseInt_natToString]

/-- Witness for C5: a fresh store, course "c", lesson 3, progress 42. -/
theorem updateProgress_sets_recency_witness :
    ∃ s2, genUpdateProgressForLesson ("c") 3 42 [] = .ok s2
      ∧ genMostRecentListenedCourse s2 = some ("c")
      ∧ genMostRecentListenedLessonForCourse ("c") s2
          = some (JSNumber.int ((3 : Int))) :=
  updateProgress_sets_recency ("c") 3 42 [] defaultProgressRecord rfl

theorem jsSpreadOpt_some (j : Json) : jsSpreadOpt (some j) = jsSpread j := rfl

theorem progress_prev_wfB (course : String) (lesson : Nat) (s : Store) (j : Json)
    (hprev : genProgressForLesson course (some lesson) s = .ok (some j)) :
    Json.wfB j = true := by
  simp only [genProgressForLesson] at hprev
  split at hprev
  · simp only [Except.ok.injEq, Option.some.injEq] at hprev
    subst hprev
    exact wfB_defaultProgressRecord
  · rename_i stored hget
    split at hprev
    · rename_i j2 hparse
      simp only [Except.ok.injEq, Option.some.injEq] at hprev
      subst hprev
      exact Json.parse_wfB stored j2 hparse
    · simp at hprev

theorem progress_read_after_writes (course : String) (lesson : Nat) (s : Store)
    (fs : List (String × Json)) (v2 : String) (hwf : wfEntriesB fs = true) :
    genProgressForLesson course (some lesson)
        (((s.set (progressKey course lesson) (Json.stringify (Json.obj fs))).set
          (mostRecentLessonKey course) v2).set mostRecentCourseKey course)
      = .ok (some (Json.obj fs)) := by
  have h1 : Json.parse (Json.stringify (Json.obj fs)) = some (Json.obj fs) :=
    Json.parse_stringify _ (by rw [wfB_obj]; exact hwf)
  simp only [genProgressForLesson, get_writes_progress, h1]

/-- Claim C3: `genUpdateProgressForLesson(C, L, N)` then
`genProgressForLesson(C, L)` yields a record whose `progress` field is `N`
and whose `finished` field equals its prior value (the default record's
`false` when no record existed); `genMarkLessonFinished(C, L)` then
`genProgressForLesson(C, L)` yields `finished: true` with `progress`
preserved.  The hypothesis is that the prior stored record decodes (the
claim's "followed by" presupposes the update completes). -/
theorem progress_merge_preserves_fields (course : String) (lesson : Nat) (pr : Int)
    (env : Env) (s : Store) (j : Json)
    (hprev : genProgressForLesson course (some lesson) s = .ok (some j)) :
    (∃ s2, genUpdateProgressForLesson course lesson pr s = .ok s2
      ∧ ∃ j2, genProgressForLesson course (some lesson) s2 = .ok (some j2)
        ∧ j2.getField ("progress") = some (Json.num pr)
        ∧ j2.getField ("finished") = j.getField ("finished"))
    ∧ (∃ s2 calls, genMarkLessonFinished env course lesson s = .ok (s2, calls)
      ∧ ∃ j2, genProgressForLesson course (some lesson) s2 = .ok (some j2)
        ∧ j2.getField ("finished") = some (Json.bool true)
        ∧ j2.getField ("progress") = j.getField ("progress")) := by
  have hwf := progress_prev_wfB course lesson s j hprev
  constructor
  · have hwfm : wfEntriesB (setField (jsSpreadOpt (some j)) ("progress") (Json.num pr))
        = true := by
      rw [jsSpreadOpt_some]
      exact wfEntriesB_setField _ _ _ (wfEntriesB_jsSpread j hwf) (by decide) (wfB_num pr)
    unfold genUpdateProgressForLesson
    rw [hprev]
    refine ⟨_, rfl, Json.obj (setField (jsSpreadOpt (some j)) ("progress") (Json.num pr)),
      progress_read_after_writes course lesson s _ _ hwfm, ?_, ?_⟩
    · simp only [Json.getField]
      exact getEntry_setField_self _ _ _
    · simp only [Json.getField]
      rw [getEntry_setField_ne _ _ _ _ (by decide), jsSpreadOpt_some]
      exact getField_jsSpread j ("finished")
  · have hwfm : wfEntriesB (setField (jsSpreadOpt (some j)) ("finished") (Json.bool true))
        = true := by
      rw [jsSpreadOpt_some]
      exact wfEntriesB_setField _ _ _ (wfEntriesB_jsSpread j hwf) (by decide) (wfB_bool true)
    have hread := progress_read_after_writes course lesson s
      (setField (jsSpreadOpt (some j)) ("finished") (Json.bool true))
      (natToString lesson) hwfm
    have hfin : (Json.obj (setField (jsSpreadOpt (some j)) ("finished")
        (Json.bool true))).getField ("finished") = some (Json.bool true) := by
      simp only [Json.getField]
      exact getEntry_setField_self _ _ _
    have hprog : (Json.obj (setField (jsSpreadOpt (some j)) ("finished")
        (Json.bool true))).getField ("progress") = j.getField ("progress") := by
      simp only [Json.getField]
      rw [getEntry_setField_ne _ _ _ _ (by decide), jsSpreadOpt_some]
      exact getField_jsSpread j ("progress")
    simp only [genMarkLessonFinished, hprev]
    obtain ⟨v, hv⟩ :
        ∃ v, genPreferenceAutoDeleteFinished
            (((s.set (progressKey course lesson)
                (Json.stringify (Json.obj (setField (jsSpreadOpt (some j)) ("finished")
                  (Json.bool true))))).set
              (mostRecentLessonKey course) (natToString lesson)).set
            mostRecentCourseKey course)
          = .ok (v, (((s.set (progressKey course lesson)
                (Json.stringify (Json.obj (setField (jsSpreadOpt (some j)) ("finished")
                  (Json.bool true))))).set
              (mostRecentLessonKey course) (natToString lesson)).set
            mostRecentCourseKey course)) := by
      rcases hg : ((((s.set (progressKey course lesson)
            (Json.stringify (Json.obj (setField (jsSpreadOpt (some j)) ("finished")
              (Json.bool true))))).set
          (mostRecentLessonKey course) (natToString lesson)).set
        mostRecentCourseKey course)).get (preferenceKey ("auto-delete-finished"))
        with _ | val
      · exact ⟨Json.bool false, by simp [genPreferenceAutoDeleteFinished, preference, hg]⟩
      · exact ⟨Json.bool (val == ("true")),
          by simp [genPreferenceAutoDeleteFinished, preference, hg, boolFromString,
            Except.map]⟩
    rw [hv]
    cases hcond : jsTruthy v && env.isDownloaded course lesson
    · simp only [hcond, Bool.false_eq_true, if_false]
      exact ⟨_, [], rfl, _, hread, hfin, hprog⟩
    · simp only [hcond, if_true]
      exact ⟨_, [(course, lesson)], rfl, _, hread, hfin, hprog⟩

/-- Witness for C3: fresh store, course "c", lesson 2, progress 7, a
download manager that reports nothing downloaded. -/
theorem progress_merge_preserves_fields_witness :
    (∃ s2, genUpdateProgressForLesson ("c") 2 7 [] = .ok s2
      ∧ ∃ j2, genProgressForLesson ("c") (some 2) s2 = .ok (some j2)
        ∧ j2.getField ("progress") = some (Json.num 7)
        ∧ j2.getField ("finished") = defaultProgressRecord.getField ("finished"))
    ∧ (∃ s2 calls,
        genMarkLessonFinished ⟨fun _ _ => false⟩ ("c") 2 [] = .ok (s2, calls)
      ∧ ∃ j2, genProgressForLesson ("c") (some 2) s2 = .ok (some j2)
        ∧ j2.getField ("finished") = some (Json.bool true)
        ∧ j2.getField ("progress") = defaultProgressRecord.getField ("progress")) :=
  progress_merge_preserves_fields ("c") 2 7 ⟨fun _ _ => false⟩ [] defaultProgressRecord rfl

theorem pref_value_after_writes (s : Store) (c : String) (l : Nat) (v1 v2 : String)
    (v : Json) (hpref : genPreferenceAutoDeleteFinished s = .ok (v, s)) :
    genPreferenceAutoDeleteFinished
        (((s.set (progressKey c l) v1).set (mostRecentLessonKey c) v2).set
          mostRecentCourseKey c)
      = .ok (v, ((s.set (progressKey c l) v1).set (mostRecentLessonKey c) v2).set
          mostRecentCourseKey c) := by
  have hg := get_writes_pref s c l v1 v2 ("auto-delete-finished")
  simp only [genPreferenceAutoDeleteFinished, preference] at hpref ⊢
  rw [hg]
  rcases hgs : s.get (preferenceKey ("auto-delete-finished")) with _ | val <;>
    rw [hgs] at hpref
  · simp only [Except.ok.injEq, Prod.mk.injEq] at hpref
    rw [← hpref.1]
  · simp only [boolFromString, Except.map, Except.ok.injEq, Prod.mk.injEq] at hpref ⊢
    exact ⟨hpref.1, trivial⟩

/-- Claim C6: `genMarkLessonFinished` requests exactly one
`DownloadManager.genDeleteDownload(C, L)` call when the auto-delete
preference reads truthy and the lesson is downloaded, and none when the
preference is disabled.  `v` is the preference value the getter reads on
the prior store; the hypothesis on the prior record makes the operation
complete rather than rethrow a decode failure. -/
theorem markFinished_autoDelete_calls (env : Env) (course : String) (lesson : Nat)
    (s : Store) (j : Json) (v : Json)
    (hprev : genProgressForLesson course (some lesson) s = .ok (some j))
    (hpref : genPreferenceAutoDeleteFinished s = .ok (v, s)) :
    ∃ s2 calls, genMarkLessonFinished env course lesson s = .ok (s2, calls)
      ∧ (jsTruthy v = true → env.isDownloaded course lesson = true →
          calls = [(course, lesson)])
      ∧ (jsTruthy v = false → calls = []) := by
  simp only [genMarkLessonFinished, hprev]
  rw [pref_value_after_writes s course lesson _ _ v hpref]
  cases hcond : jsTruthy v && env.isDownloaded course lesson
  · simp only [hcond, Bool.false_eq_true, if_false]
    refine ⟨_, [], rfl, ?_, fun _ => rfl⟩
    intro ht hd
    rw [ht, hd] at hcond
    simp at hcond
  · simp only [hcond, if_true]
    refine ⟨_, [(course, lesson)], rfl, fun _ _ => rfl, ?_⟩
    intro hf
    rw [Bool.and_eq_true] at hcond
    rw [hf] at hcond
    simp at hcond

/-- Witness for C6: the preference enabled and the lesson downloaded on a
store holding the preference and nothing else. -/
theorem markFinished_autoDelete_calls_witness :
    ∃ s2 calls,
      genMarkLessonFinished ⟨fun _ _ => true⟩ ("c") 1
          [((preferenceKey ("auto-delete-finished")), ("true"))] = .ok (s2, calls)
      ∧ (jsTruthy (Json.bool true) = true → true = true → calls = [(("c"), 1)])
      ∧ (jsTruthy (Json.bool true) = false → calls = []) :=
  markFinished_autoDelete_calls ⟨fun _ _ => true⟩ ("c") 1
    [((preferenceKey ("auto-delete-finished")), ("true"))]
    defaultProgressRecord (Json.bool true) rfl rfl
